import Mathlib

/-!
Verification of the update-merge engine of `scripts/apply_update.py`
(electionriskmap).  The Python functions are shallowly embedded over
`List Char`, mirroring the source text operations: Python `str.find`,
`re` literal scanning, the lazy and greedy sub-patterns actually used,
and `datetime.strptime` for the four date formats tried by
`parse_tl_date`.  All definitions are structurally recursive (fuel on
the input length where needed) so that concrete witnesses evaluate
inside the kernel.

Modelling notes kept throughout: Python `str` is modelled as
`List Char`; the embedding is exact on Unicode scalar values, except
that (a) `str.lower`, `str.strip` and `int` are modelled on their
ASCII behaviour (the merge engine only ever feeds them ASCII anchor
material), and (b) lone surrogate halves in JSON string escapes are
decoded to U+FFFD because Lean `Char` carries only scalar values.
-/

set_option maxRecDepth 4000

abbrev Str := List Char

/-- Python whitespace class, as used by `str.strip` and by `\s` in the
regex patterns of the source (ASCII part). -/
def pyWs (c : Char) : Bool :=
  c = ' ' || c = '\t' || c = '\n' || c = '\r' || c = '\x0b' || c = '\x0c'

/-- Python `str.strip()`: drop leading and trailing whitespace. -/
def pyStrip (s : Str) : Str :=
  ((s.dropWhile pyWs).reverse.dropWhile pyWs).reverse

/-- Python `str.lower()` (ASCII). -/
def pyLower (s : Str) : Str := s.map Char.toLower

/-- Substring containment, Python `sub in s`. -/
def occursIn (p : Str) : Str → Bool
  | [] => p.isEmpty
  | s@(_ :: rest) => p.isPrefixOf s || occursIn p rest

/-- Index of the first occurrence of `pat` in `s` (Python `s.find(pat)`
when the result is not `-1`). -/
def findSubIdx (pat : Str) : Str → Option Nat
  | [] => if pat = [] then some 0 else none
  | s@(_ :: rest) =>
    if pat.isPrefixOf s then some 0
    else (· + 1) <$> findSubIdx pat rest

/-- Python `s.find(pat, start)`, returning `-1` on failure. -/
def pyFind (s pat : Str) (start : Nat) : Int :=
  match findSubIdx pat (s.drop start) with
  | some i => (start + i : Nat)
  | none => -1

/-- All match positions of `re.finditer` on a literal pattern:
left-to-right, non-overlapping. -/
def findAllOccGo (pat : Str) : Nat → Nat → Str → List Nat
  | 0, _, _ => []
  | _, _, [] => []
  | fuel + 1, pos, s@(_ :: rest) =>
    if pat.isPrefixOf s ∧ pat ≠ [] then
      pos :: findAllOccGo pat fuel (pos + pat.length) (s.drop pat.length)
    else
      findAllOccGo pat fuel (pos + 1) rest

def findAllOcc (s pat : Str) : List Nat := findAllOccGo pat s.length 0 s

-- ---------------------------------------------------------------------------
-- parse_tl_date (source lines 323-349)
-- ---------------------------------------------------------------------------

/-- Month abbreviations recognised by `%b` (C locale), lowercase. -/
def monthAbbrevs : List (Str × Nat) :=
  [(("jan").data, 1), (("feb").data, 2), (("mar").data, 3), (("apr").data, 4),
   (("may").data, 5), (("jun").data, 6), (("jul").data, 7), (("aug").data, 8),
   (("sep").data, 9), (("oct").data, 10), (("nov").data, 11), (("dec").data, 12)]

/-- Full month names recognised by `%B` (C locale), lowercase. -/
def monthFulls : List (Str × Nat) :=
  [(("january").data, 1), (("february").data, 2), (("march").data, 3),
   (("april").data, 4), (("may").data, 5), (("june").data, 6),
   (("july").data, 7), (("august").data, 8), (("september").data, 9),
   (("october").data, 10), (("november").data, 11), (("december").data, 12)]

/-- Days per month in year 1900 (the default year `strptime` validates
against in the `%b %d` / `%B %d` formats; 1900 is not a leap year). -/
def days1900 (m : Nat) : Nat :=
  ([31, 28, 31, 30, 31, 30, 31, 31, 30, 31, 30, 31].getD (m - 1) 0 : Nat)

/-- Strip a month-name prefix (case-insensitive, a la `%b`/`%B`).  The
names in either table are never prefixes of one another, so the first
hit is the unique one. -/
def monthNameStrip : List (Str × Nat) → Str → Option (Nat × Str)
  | [], _ => none
  | (name, num) :: tbl, s =>
    if name.isPrefixOf (pyLower (s.take name.length)) then
      some (num, s.drop name.length)
    else
      monthNameStrip tbl s

/-- Digits of a decimal numeral. -/
def allDigits (s : Str) : Bool := s.all Char.isDigit

def digitsToNat (s : Str) : Nat :=
  s.foldl (fun acc c => acc * 10 + (c.toNat - 48)) 0

/-- Encode a calendar date as `y * 10000 + m * 100 + d`; with
`1 ≤ m ≤ 12` and `1 ≤ d ≤ 31` this encoding is strictly monotone in
the lexicographic (year, month, day) order used by `datetime`
comparison. -/
def mkDate (y m d : Nat) : Nat := y * 10000 + m * 100 + d

/-- One `strptime(s, "%b %d")`-style attempt: month name from `tbl`,
one-or-more whitespace (the literal blank in the format maps to `\s+`),
then a 1-2 digit day validated against year 1900; on success the year
is replaced by 2026 as in the source. -/
def tryMonthDay (tbl : List (Str × Nat)) (s : Str) : Option Nat :=
  match monthNameStrip tbl s with
  | none => none
  | some (m, r) =>
    match r with
    | [] => none
    | c :: _ =>
      if pyWs c then
        let ds := r.dropWhile pyWs
        if allDigits ds ∧ (ds.length = 1 ∨ ds.length = 2) then
          let d := digitsToNat ds
          if 1 ≤ d ∧ d ≤ days1900 m then some (mkDate 2026 m d) else none
        else none
      else none

/-- One `strptime(s, "%b %Y")`-style attempt: month name, whitespace,
then exactly four digits forming a year in `datetime` range (>= 1). -/
def tryMonthYear (tbl : List (Str × Nat)) (s : Str) : Option Nat :=
  match monthNameStrip tbl s with
  | none => none
  | some (m, r) =>
    match r with
    | [] => none
    | c :: _ =>
      if pyWs c then
        let ds := r.dropWhile pyWs
        if allDigits ds ∧ ds.length = 4 then
          let y := digitsToNat ds
          if 1 ≤ y then some (mkDate y m 1) else none
        else none
      else none

/-- Digit tail of Python `int()`: digits with single underscores
strictly between digits. -/
def intDigitsGo : Str → Nat → Option Nat
  | [], acc => some acc
  | '_' :: rest, acc =>
    match rest with
    | d :: rest2 =>
      if d.isDigit then intDigitsGo rest2 (acc * 10 + (d.toNat - 48)) else none
    | [] => none
  | c :: rest, acc =>
    if c.isDigit then intDigitsGo rest (acc * 10 + (c.toNat - 48)) else none

/-- Python `int(s)` for an already-stripped string (ASCII digits; an
optional single sign; underscores between digits). -/
def pyInt : Str → Option Int
  | '+' :: t =>
    match t with
    | c :: t2 => if c.isDigit then (intDigitsGo t2 (c.toNat - 48)).map Int.ofNat else none
    | [] => none
  | '-' :: t =>
    match t with
    | c :: t2 => if c.isDigit then (intDigitsGo t2 (c.toNat - 48)).map (fun n => -(n : Int)) else none
    | [] => none
  | c :: t => if c.isDigit then (intDigitsGo t (c.toNat - 48)).map Int.ofNat else none
  | [] => none

/-- Final fallback of `parse_tl_date`: `datetime(int(s), 1, 1)`; the
`datetime` constructor accepts years 1..9999, anything else raises and
is caught. -/
def tryBareYear (s : Str) : Option Nat :=
  match pyInt s with
  | some (Int.ofNat y) => if 1 ≤ y ∧ y ≤ 9999 then some (mkDate y 1 1) else none
  | _ => none

/-- The sentinel returned for unparseable labels:
`datetime(2020, 1, 1)`. -/
def tlSentinel : Nat := mkDate 2020 1 1

/-- Function `parse_tl_date` from the source: strip, then try `%b %d`, `%B %d`
(year replaced by 2026), then `%b %Y`, `%B %Y` (the source tries this
pair twice in a row; the repetition is semantically inert and is not
duplicated here), then a bare year; unparseable labels yield the
sentinel `datetime(2020, 1, 1)`. -/
def parse_tl_date (s : Str) : Nat :=
  let t := pyStrip s
  match tryMonthDay monthAbbrevs t with
  | some v => v
  | none =>
  match tryMonthDay monthFulls t with
  | some v => v
  | none =>
  match tryMonthYear monthAbbrevs t with
  | some v => v
  | none =>
  match tryMonthYear monthFulls t with
  | some v => v
  | none =>
  match tryBareYear t with
  | some v => v
  | none => tlSentinel

/-- A label matches one of the patterns tried by `parse_tl_date`. -/
def tl_date_parseable (s : Str) : Bool :=
  let t := pyStrip s
  (tryMonthDay monthAbbrevs t).isSome || (tryMonthDay monthFulls t).isSome ||
  (tryMonthYear monthAbbrevs t).isSome || (tryMonthYear monthFulls t).isSome ||
  (tryBareYear t).isSome

-- ---------------------------------------------------------------------------
-- insert_timeline_entries (source lines 318-395)
-- ---------------------------------------------------------------------------

def tlDateOpen : Str := ("<div class=\"tl-date\">").data
def divClose : Str := ("</div>").data
def tlItemMarker : Str := ("<div class=\"tl-item\">").data
def timelineTitleMarker : Str := ("<div class=\"timeline-title mono\">").data

/-- Lazy tail of the pattern `<div class="tl-date">(.*?)</div>` without
DOTALL: collect characters (none of them a newline) up to the first
occurrence of the closing literal; the closing literal is tried before
the newline ban, matching lazy-star semantics. -/
def grabNoNl : Nat → Str → Option Str
  | 0, _ => none
  | _ + 1, [] => none
  | fuel + 1, s@(c :: rest) =>
    if divClose.isPrefixOf s then some []
    else if c = '\n' then none
    else (c :: ·) <$> grabNoNl fuel rest

/-- Search for the lazy tl-date pattern as `re.search` does: scan start
positions left to right; at each opener occurrence the lazy body must
reach a `</div>` on the same line, otherwise scanning resumes at the
next character. -/
def searchTlDateGo : Nat → Str → Option Str
  | 0, _ => none
  | _ + 1, [] => none
  | fuel + 1, s@(_ :: rest) =>
    if tlDateOpen.isPrefixOf s then
      match grabNoNl s.length (s.drop tlDateOpen.length) with
      | some lbl => some lbl
      | none => searchTlDateGo fuel rest
    else searchTlDateGo fuel rest

def searchTlDate (s : Str) : Option Str := searchTlDateGo s.length s

/-- The normalized date the insertion loop sees for the existing entry
starting at position `p`: the source searches the tl-date pattern only
inside the 200-character window `html[p:p+200]`. -/
def dateOf (html : Str) (p : Nat) : Option Nat :=
  (searchTlDate ((html.drop p).take 200)).map parse_tl_date

/-- Loop test of the source: the entry has a recoverable date and
`new_date >= existing_date`. -/
def tlPred (html : Str) (newDate : Nat) (p : Nat) : Bool :=
  match dateOf html p with
  | some d => newDate ≥ d
  | none => false

/-- Shared fallback of `insert_timeline_entries`: insert right after
the `</div>` that closes the timeline-title element, or return the
document unchanged when either anchor is missing. -/
def insertAtTop (html ne : Str) : Str :=
  let idx := pyFind html timelineTitleMarker 0
  if idx = -1 then html
  else
    let closeIdx := pyFind html divClose idx.toNat
    if closeIdx = -1 then html
    else
      let pos := (closeIdx + 6).toNat
      html.take pos ++ '\n' :: (ne ++ '\n' :: html.drop pos)

/-- End position used for the append-at-bottom branch: one past the
third `</div>` occurrence at or after the last entry start, following
the chained `str.find` calls of the source (each `-1` feeds `0` into
the next search, exactly as in Python). -/
def endOfLastItem (html : Str) (lastPos : Nat) : Int :=
  let f1 := pyFind html divClose lastPos
  let f2 := pyFind html divClose (f1 + 1).toNat
  let f3 := pyFind html divClose (f2 + 1).toNat
  f3 + 6

/-- Function `insert_timeline_entries(html, new_entries)` from the source. -/
def insert_timeline_entries (html ne : Str) : Str :=
  match searchTlDate ne with
  | none => insertAtTop html ne
  | some lbl =>
    let newDate := parse_tl_date lbl
    let items := findAllOcc html tlItemMarker
    if items = [] then insertAtTop html ne
    else
      match items.find? (tlPred html newDate) with
      | some p => html.take p ++ ne ++ ('\n' :: ("    ").data) ++ html.drop p
      | none =>
        let e := (endOfLastItem html (items.getLastD 0)).toNat
        html.take e ++ ('\n' :: ("    ").data) ++ ne ++ '\n' :: html.drop e

-- ---------------------------------------------------------------------------
-- remove_old_new_tags (source lines 398-404)
-- ---------------------------------------------------------------------------

/-- The removal substitution: pattern whitespace-star then a literal
`LIT` beginning with a
non-whitespace character: scan left to right; a position matches when
the literal follows the whitespace run starting there; matched spans
are removed and scanning resumes after them, without rescanning the
spliced output (faithful to `re.sub`). -/
def subWsLitGo (p : Str) : Nat → Str → Str
  | 0, s => s
  | _ + 1, [] => []
  | fuel + 1, s@(c :: rest) =>
    let t := s.dropWhile pyWs
    if p.isPrefixOf t ∧ p ≠ [] then subWsLitGo p fuel (t.drop p.length)
    else c :: subWsLitGo p fuel rest

def subWsLit (p s : Str) : Str := subWsLitGo p s.length s

def tlNewSpan : Str := ("<span class=\"tl-new\">New</span>").data
def oldNewSpan : Str := ("<span class=\"timeline-tag new\">New</span>").data

/-- Function `remove_old_new_tags` from the source: strip current-style marker
spans, then old-style ones. -/
def remove_old_new_tags (html : Str) : Str :=
  subWsLit oldNewSpan (subWsLit tlNewSpan html)

-- ---------------------------------------------------------------------------
-- update_stats (source lines 407-422)
-- ---------------------------------------------------------------------------

/-- Attempt of the pattern `(ANCHOR[^>]*>)\s*(\d+)` at the head of `s`:
the anchor literal, a greedy run of non-`>` characters, the first `>`
(this closes capture group 1), a greedy whitespace run, then at least
one digit.  Returns `(group-1 end, match end)` offsets. -/
def statMatchAt (anchor : Str) (s : Str) : Option (Nat × Nat) :=
  if anchor.isPrefixOf s then
    let r1 := s.drop anchor.length
    let mid := r1.takeWhile (fun c => c ≠ '>')
    match r1.drop mid.length with
    | '>' :: r3 =>
      let g1 := anchor.length + mid.length + 1
      let ws := r3.takeWhile pyWs
      let ds := (r3.drop ws.length).takeWhile Char.isDigit
      if ds = [] then none else some (g1, g1 + ws.length + ds.length)
    | _ => none
  else none

/-- First match of the stat pattern while scanning `s` left to right:
`(start, group-1 end, match end)` offsets relative to `s`. -/
def statFindGo (anchor : Str) : Nat → Str → Option (Nat × Nat × Nat)
  | 0, _ => none
  | _ + 1, [] => none
  | fuel + 1, s@(_ :: rest) =>
    match statMatchAt anchor s with
    | some (g1, ml) => some (0, g1, ml)
    | none => (fun x => (x.1 + 1, x.2.1 + 1, x.2.2 + 1)) <$> statFindGo anchor fuel rest

def statFind (anchor : Str) (s : Str) : Option (Nat × Nat × Nat) :=
  statFindGo anchor s.length s

/-- The stat substitution over the whole document: every match
is rewritten to its group 1 followed by `rep` (the interpolated stat
value); the whitespace and old digits are dropped. -/
def subStatGo (anchor rep : Str) : Nat → Str → Str
  | 0, s => s
  | _ + 1, [] => []
  | fuel + 1, s@(c :: rest) =>
    match statMatchAt anchor s with
    | some (g1, ml) => s.take g1 ++ rep ++ subStatGo anchor rep fuel (s.drop ml)
    | none => c :: subStatGo anchor rep fuel rest

def subStat (anchor rep : Str) (s : Str) : Str := subStatGo anchor rep s.length s

def suedAnchor : Str := ("data-stat=\"sued\"").data
def compliedAnchor : Str := ("data-stat=\"complied\"").data
def courtAnchor : Str := ("data-stat=\"court\"").data
def contactedAnchor : Str := ("data-stat=\"contacted\"").data

/-- JSON values as produced by `json.loads`: `fraw` keeps the raw
literal of a non-integer numeric token (floats, NaN, Infinity), whose
exact numeric value the merge engine never inspects. -/
inductive Json where
  | null
  | bool (b : Bool)
  | num (n : Int)
  | fraw (lit : Str)
  | str (s : Str)
  | arr (elems : List Json)
  | obj (fields : List (Str × Json))

def Json.isNull : Json → Bool
  | .null => true
  | _ => false

/-- Decimal rendering of a natural number. -/
def natToStrGo : Nat → Nat → Str → Str
  | 0, _, acc => acc
  | fuel + 1, n, acc =>
    if n < 10 then Char.ofNat (48 + n) :: acc
    else natToStrGo fuel (n / 10) (Char.ofNat (48 + n % 10) :: acc)

def natToStr (n : Nat) : Str := natToStrGo (n + 1) n []

def intToStr : Int → Str
  | Int.ofNat n => natToStr n
  | Int.negSucc n => '-' :: natToStr (n + 1)

/-- Python `str(...)`/f-string rendering of a JSON value, for the
cases the merge engine can reach with scalar data.  Container and raw
float renderings are approximations (Python would use `repr` spacing
and float normalisation); the stat fields of the descriptor schema are
integers or null, so these cases never matter for the claims. -/
def pyStrJson : Json → Str
  | .null => ("None").data
  | .bool true => ("True").data
  | .bool false => ("False").data
  | .num n => intToStr n
  | .fraw lit => lit
  | .str s => s
  | .arr _ => ("[...]").data
  | .obj _ => ("\x7b...\x7d").data

def statAnchorFor (key : Str) : Option Str :=
  if key = ("states_sued").data then some suedAnchor
  else if key = ("states_complied").data then some compliedAnchor
  else if key = ("court_wins_merits").data then some courtAnchor
  else if key = ("states_contacted").data then some contactedAnchor
  else none

/-- One iteration of the `update_stats` loop body. -/
def statStep (h : Str) (kv : Str × Json) : Str :=
  if (kv.2).isNull then h
  else
    match statAnchorFor kv.1 with
    | some anchor => subStat anchor (pyStrJson kv.2) h
    | none => h

/-- Function `update_stats(html, stats)` from the source; the dict is modelled
as its `items()` association list in insertion order. -/
def update_stats (html : Str) (stats : List (Str × Json)) : Str :=
  if stats.isEmpty then html
  else stats.foldl statStep html

-- ---------------------------------------------------------------------------
-- insert_feed_items (source lines 441-456)
-- ---------------------------------------------------------------------------

def lastBuildOpen : Str := ("<lastBuildDate>").data
def lastBuildClose : Str := ("</lastBuildDate>").data
def descClose : Str := ("</description>").data

/-- Length up to and including the first occurrence of `closer`, with
no newline before it (lazy `.*?closer` without DOTALL); the closer is
tried before the newline ban. -/
def lazyCloseLenGo (closer : Str) : Nat → Str → Option Nat
  | 0, _ => none
  | fuel + 1, s =>
    if closer.isPrefixOf s then some closer.length
    else
      match s with
      | [] => none
      | c :: rest =>
        if c = '\n' then none
        else (· + 1) <$> lazyCloseLenGo closer fuel rest

/-- Global substitution of the span from a literal `OPEN` lazily to a
literal `CLOSE` (no DOTALL), with `OPEN` and
`CLOSE`, literal replacement `rep`. -/
def subLazySpanGo (opener closer rep : Str) : Nat → Str → Str
  | 0, s => s
  | _ + 1, [] => []
  | fuel + 1, s@(c :: rest) =>
    if opener.isPrefixOf s then
      match lazyCloseLenGo closer s.length (s.drop opener.length) with
      | some k => rep ++ subLazySpanGo opener closer rep fuel (s.drop (opener.length + k))
      | none => c :: subLazySpanGo opener closer rep fuel rest
    else c :: subLazySpanGo opener closer rep fuel rest

def subLazySpan (opener closer rep s : Str) : Str :=
  subLazySpanGo opener closer rep s.length s

/-- Index (relative to `run`) one past the last newline in `run`. -/
def lastNlEnd : Str → Option Nat
  | [] => none
  | c :: rest =>
    match lastNlEnd rest with
    | some k => some (k + 1)
    | none => if c = '\n' then some 1 else none

/-- Match of `(</description>\s*\n)` at the head of `s`: the literal,
then a whitespace run that must contain a newline; greedy `\s*` with
the backtracked final `\n` makes the match end one past the last
newline of the maximal whitespace run.  Returns the match end. -/
def descAnchorEndAt (s : Str) : Option Nat :=
  if descClose.isPrefixOf s then
    let run := (s.drop descClose.length).takeWhile pyWs
    match lastNlEnd run with
    | some k => some (descClose.length + k)
    | none => none
  else none

/-- Search end position of the first description-anchor match, as `re.search` reports it. -/
def searchDescAnchorGo : Nat → Str → Option Nat
  | 0, _ => none
  | _ + 1, [] => none
  | fuel + 1, s@(_ :: rest) =>
    match descAnchorEndAt s with
    | some e => some e
    | none => (· + 1) <$> searchDescAnchorGo fuel rest

def searchDescAnchor (s : Str) : Option Nat := searchDescAnchorGo s.length s

/-- The `lastBuildDate` rewrite applied first by `insert_feed_items`
when a build-date string is supplied (`if last_build_date:`). -/
def applyBuildDate (feed bd : Str) : Str :=
  if bd = [] then feed
  else subLazySpan lastBuildOpen lastBuildClose (lastBuildOpen ++ bd ++ lastBuildClose) feed

/-- Function `insert_feed_items(feed_xml, new_items, last_build_date)` from the
source: rewrite `lastBuildDate` if a date is supplied, then insert the
items right after the channel `</description>` anchor; a missing
anchor leaves the (possibly date-rewritten) feed as is. -/
def insert_feed_items (feed items bd : Str) : Str :=
  let feed2 := applyBuildDate feed bd
  match searchDescAnchor feed2 with
  | some pos => feed2.take pos ++ items ++ '\n' :: feed2.drop pos
  | none => feed2

/-- The warning branch of `insert_feed_items` (anchor not found). -/
def insert_feed_items_warns (feed bd : Str) : Bool :=
  (searchDescAnchor (applyBuildDate feed bd)).isNone

-- ---------------------------------------------------------------------------
-- detect_mode (source lines 64-69)
-- ---------------------------------------------------------------------------

def approvedPhrase : Str := ("approved with edits").data

/-- Function `detect_mode(comment)` from the source. -/
def detect_mode (comment : Str) : Str :=
  let lower := pyStrip (pyLower comment)
  if occursIn approvedPhrase lower then ("with_edits").data else ("clean").data

-- ---------------------------------------------------------------------------
-- update_monitor_timeline (source lines 459-467)
-- ---------------------------------------------------------------------------

def monitorMarker : Str := ("Already on the site (do NOT re-report these):").data

/-- Function `update_monitor_timeline(monitor_py, new_lines)` from the source. -/
def update_monitor_timeline (monitor newLines : Str) : Str :=
  match findSubIdx monitorMarker monitor with
  | none => monitor
  | some i =>
    let pos := i + monitorMarker.length
    monitor.take pos ++ '\n' :: newLines ++ monitor.drop pos

-- ---------------------------------------------------------------------------
-- json.loads (CPython json decoder, strict mode) and parse_json_response
-- (source lines 177-194)
-- ---------------------------------------------------------------------------

/-- JSON whitespace (exactly space, tab, newline, carriage return). -/
def jWs (c : Char) : Bool := c = ' ' || c = '\t' || c = '\n' || c = '\r'

def skipJWs (s : Str) : Str := s.dropWhile jWs

def hexVal (c : Char) : Option Nat :=
  if c.isDigit then some (c.toNat - 48)
  else if 'a' ≤ c ∧ c ≤ 'f' then some (c.toNat - 87)
  else if 'A' ≤ c ∧ c ≤ 'F' then some (c.toNat - 55)
  else none

/-- Decode a `\uXXXX` escape given four hex digits. -/
def hex4 (a b c d : Char) : Option Nat := do
  let x ← hexVal a
  let y ← hexVal b
  let z ← hexVal c
  let w ← hexVal d
  pure (((x * 16 + y) * 16 + z) * 16 + w)

/-- JSON string body after the opening quote (strict mode: raw control
characters are rejected; surrogate pairs combine; a lone surrogate is
decoded to U+FFFD, see the header note). -/
def parseJStrGo : Nat → Str → Option (Str × Str)
  | 0, _ => none
  | _ + 1, [] => none
  | _ + 1, '"' :: rest => some ([], rest)
  | fuel + 1, '\\' :: esc =>
    match esc with
    | '"' :: r => (fun x => ('"' :: x.1, x.2)) <$> parseJStrGo fuel r
    | '\\' :: r => (fun x => ('\\' :: x.1, x.2)) <$> parseJStrGo fuel r
    | '/' :: r => (fun x => ('/' :: x.1, x.2)) <$> parseJStrGo fuel r
    | 'b' :: r => (fun x => ('\x08' :: x.1, x.2)) <$> parseJStrGo fuel r
    | 'f' :: r => (fun x => ('\x0c' :: x.1, x.2)) <$> parseJStrGo fuel r
    | 'n' :: r => (fun x => ('\n' :: x.1, x.2)) <$> parseJStrGo fuel r
    | 'r' :: r => (fun x => ('\r' :: x.1, x.2)) <$> parseJStrGo fuel r
    | 't' :: r => (fun x => ('\t' :: x.1, x.2)) <$> parseJStrGo fuel r
    | 'u' :: h1 :: h2 :: h3 :: h4 :: r =>
      match hex4 h1 h2 h3 h4 with
      | none => none
      | some n =>
        if 0xd800 ≤ n ∧ n ≤ 0xdbff then
          match r with
          | '\\' :: 'u' :: g1 :: g2 :: g3 :: g4 :: r2 =>
            match hex4 g1 g2 g3 g4 with
            | some m =>
              if 0xdc00 ≤ m ∧ m ≤ 0xdfff then
                (fun x => (Char.ofNat (0x10000 + (n - 0xd800) * 1024 + (m - 0xdc00)) :: x.1, x.2))
                  <$> parseJStrGo fuel r2
              else (fun x => ('\uFFFD' :: x.1, x.2)) <$> parseJStrGo fuel r
            | none => (fun x => ('\uFFFD' :: x.1, x.2)) <$> parseJStrGo fuel r
          | _ => (fun x => ('\uFFFD' :: x.1, x.2)) <$> parseJStrGo fuel r
        else if 0xdc00 ≤ n ∧ n ≤ 0xdfff then
          (fun x => ('\uFFFD' :: x.1, x.2)) <$> parseJStrGo fuel r
        else
          (fun x => (Char.ofNat n :: x.1, x.2)) <$> parseJStrGo fuel r
    | _ => none
  | fuel + 1, c :: rest =>
    if c.toNat < 32 then none
    else (fun x => (c :: x.1, x.2)) <$> parseJStrGo fuel rest

def parseJStr (s : Str) : Option (Str × Str) := parseJStrGo (s.length + 1) s

/-- JSON number token at the head of `s`, following the decoder regex
`(-?(?:0|[1-9]\d*))(\.\d+)?([eE][-+]?\d+)?`: integer literals become
`Json.num`, literals with a fraction or exponent keep their raw text
as `Json.fraw`. -/
def parseJNum (s : Str) : Option (Json × Str) :=
  let sign : Bool := match s with | '-' :: _ => true | _ => false
  let s1 := if sign then s.drop 1 else s
  match s1 with
  | [] => none
  | c :: _ =>
    if ¬ c.isDigit then none
    else
      let ip := if c = '0' then ['0'] else s1.takeWhile Char.isDigit
      let r1 := s1.drop ip.length
      let frac :=
        match r1 with
        | '.' :: d :: _ =>
          if d.isDigit then '.' :: (r1.drop 1).takeWhile Char.isDigit else []
        | _ => []
      let r2 := r1.drop frac.length
      let ex :=
        match r2 with
        | e :: tail =>
          if e = 'e' ∨ e = 'E' then
            match tail with
            | sgn :: d :: _ =>
              if (sgn = '+' ∨ sgn = '-') ∧ d.isDigit then
                e :: sgn :: (tail.drop 1).takeWhile Char.isDigit
              else if sgn.isDigit then e :: tail.takeWhile Char.isDigit
              else []
            | [d] => if d.isDigit then [e, d] else []
            | [] => []
          else []
        | [] => []
      let r3 := r2.drop ex.length
      if frac = [] ∧ ex = [] then
        let v : Int := if sign then -(digitsToNat ip : Int) else (digitsToNat ip : Int)
        some (Json.num v, r3)
      else
        let lit := (if sign then ['-'] else []) ++ ip ++ frac ++ ex
        some (Json.fraw lit, r3)

/-- Insert with `dict` semantics: a repeated key keeps its original
position and takes the latest value. -/
def objUpsert (kvs : List (Str × Json)) (k : Str) (v : Json) : List (Str × Json) :=
  match kvs with
  | [] => [(k, v)]
  | (k0, v0) :: rest =>
    if k0 = k then (k0, v) :: rest else (k0, v0) :: objUpsert rest k v

/-- Parser modes: a value, the continuation inside an array or an
object.  A single fuel-indexed function keeps the whole decoder
structurally recursive. -/
inductive JMode where
  | val
  | arrElem (acc : List Json)
  | arrRest (acc : List Json)
  | objPair (acc : List (Str × Json))
  | objRest (acc : List (Str × Json))

def jstep : Nat → JMode → Str → Option (Json × Str)
  | 0, _, _ => none
  | fuel + 1, .val, s =>
    match s with
    | '\x7b' :: rest =>
      let r := skipJWs rest
      (match r with
       | '\x7d' :: r2 => some (Json.obj [], r2)
       | _ => jstep fuel (.objPair []) r)
    | '[' :: rest =>
      let r := skipJWs rest
      (match r with
       | ']' :: r2 => some (Json.arr [], r2)
       | _ => jstep fuel (.arrElem []) r)
    | '"' :: rest => (fun x => (Json.str x.1, x.2)) <$> parseJStr rest
    | 't' :: 'r' :: 'u' :: 'e' :: rest => some (Json.bool true, rest)
    | 'f' :: 'a' :: 'l' :: 's' :: 'e' :: rest => some (Json.bool false, rest)
    | 'n' :: 'u' :: 'l' :: 'l' :: rest => some (Json.null, rest)
    | 'N' :: 'a' :: 'N' :: rest => some (Json.fraw (("NaN").data), rest)
    | 'I' :: 'n' :: 'f' :: 'i' :: 'n' :: 'i' :: 't' :: 'y' :: rest =>
      some (Json.fraw (("Infinity").data), rest)
    | '-' :: 'I' :: 'n' :: 'f' :: 'i' :: 'n' :: 'i' :: 't' :: 'y' :: rest =>
      some (Json.fraw (("-Infinity").data), rest)
    | _ => parseJNum s
  | fuel + 1, .arrElem acc, s =>
    match jstep fuel .val s with
    | some (v, r) => jstep fuel (.arrRest (acc ++ [v])) (skipJWs r)
    | none => none
  | fuel + 1, .arrRest acc, s =>
    match s with
    | ',' :: r => jstep fuel (.arrElem acc) (skipJWs r)
    | ']' :: r => some (Json.arr acc, r)
    | _ => none
  | fuel + 1, .objPair acc, s =>
    match s with
    | '"' :: r =>
      (match parseJStr r with
       | some (k, r2) =>
         (match skipJWs r2 with
          | ':' :: r3 =>
            (match jstep fuel .val (skipJWs r3) with
             | some (v, r4) => jstep fuel (.objRest (objUpsert acc k v)) (skipJWs r4)
             | none => none)
          | _ => none)
       | none => none)
    | _ => none
  | fuel + 1, .objRest acc, s =>
    match s with
    | ',' :: r => jstep fuel (.objPair acc) (skipJWs r)
    | '\x7d' :: r => some (Json.obj acc, r)
    | _ => none

/-- Python `json.loads(s)`: skip surrounding whitespace, decode one value,
reject trailing data. -/
def jsonLoads (s : Str) : Option Json :=
  match jstep (3 * s.length + 16) .val (skipJWs s) with
  | some (v, rest) => if skipJWs rest = [] then some v else none
  | none => none

/-- Python `dict.get(key)` on a decoded object. -/
def jGet (j : Json) (key : Str) : Option Json :=
  match j with
  | .obj kvs => (kvs.find? (fun kv => kv.1 = key)).map (fun kv => kv.2)
  | _ => none

/-- Python `dict.get(key, default)`. -/
def jGetD (j : Json) (key : Str) (d : Json) : Json := (jGet j key).getD d

/-- Python truthiness of a decoded JSON value (`fraw` literals are
numeric, falsy exactly when the mantissa is all zeros, which covers
0.0-style literals; NaN and the infinities are truthy). -/
def jTruthy : Json → Bool
  | .null => false
  | .bool b => b
  | .num n => n ≠ 0
  | .fraw lit => ¬ ((lit.filter Char.isDigit ≠ []) ∧ (lit.filter Char.isDigit).all (· = '0'))
  | .str s => s ≠ []
  | .arr xs => ¬ xs.isEmpty
  | .obj kvs => ¬ kvs.isEmpty

/-- The code-fence cleaning of `parse_json_response`: strip, drop the
first line when it starts with three backticks, drop a trailing fence,
strip again. -/
def cleanFences (text : Str) : Str :=
  let fence : Str := [Char.ofNat 96, Char.ofNat 96, Char.ofNat 96]
  let c0 := pyStrip text
  let c1 :=
    if fence.isPrefixOf c0 then
      match findSubIdx ['\n'] c0 with
      | some i => c0.drop (i + 1)
      | none => c0.drop 3
    else c0
  let c2 := if fence.isSuffixOf c1 then c1.take (c1.length - 3) else c1
  pyStrip c2

/-- Index of the first opening brace in `s`, as in the source's
`cleaned.find` call. -/
def firstBrace (s : Str) : Option Nat := findSubIdx ['\x7b'] s

/-- Index of the last closing brace in `s`, as in the source's
`cleaned.rfind` call. -/
def lastBrace (s : Str) : Option Nat :=
  match findSubIdx ['\x7d'] s.reverse with
  | some i => some (s.length - 1 - i)
  | none => none

/-- Function `parse_json_response(text)` from the source; `Except.error 1`
models `sys.exit(1)`. -/
def parse_json_response (text : Str) : Except Nat Json :=
  let cleaned := cleanFences text
  match firstBrace cleaned, lastBrace cleaned with
  | some st, some en =>
    (match jsonLoads ((cleaned.drop st).take (en + 1 - st)) with
     | some v => Except.ok v
     | none => Except.error 1)
  | _, _ => Except.error 1

-- ---------------------------------------------------------------------------
-- A small backtracking regex engine, used to embed the remaining
-- `re` patterns of the source exactly (greedy/lazy repetition,
-- optional pieces, lookahead, the non-multiline dollar).  The engine
-- is continuation-passing with a fuel bound on recursion depth, so it
-- is structurally recursive and kernel-evaluable.
-- ---------------------------------------------------------------------------

inductive RE where
  | eps
  | lit (c : Char)
  | cls (p : Char → Bool)
  | seq (a b : RE)
  | alt (a b : RE)
  | star (lazy : Bool) (a : RE)
  | cap (a : RE)
  | look (a : RE)
  | eos
  | dollar

/-- One capture span (the patterns of the source use one group). -/
abbrev Caps := Option (Nat × Nat)

def charAtD (s : Str) (pos : Nat) : Option Char := (s.drop pos).head?

def reRun (s : Str) : Nat → RE → Nat → Caps →
    (Nat → Caps → Option (Nat × Caps)) → Option (Nat × Caps)
  | 0, _, _, _, _ => none
  | fuel + 1, re, pos, cap, k =>
    match re with
    | .eps => k pos cap
    | .lit c =>
      (match charAtD s pos with
       | some c0 => if c0 = c then k (pos + 1) cap else none
       | none => none)
    | .cls p =>
      (match charAtD s pos with
       | some c0 => if p c0 then k (pos + 1) cap else none
       | none => none)
    | .seq a b => reRun s fuel a pos cap (fun p c => reRun s fuel b p c k)
    | .alt a b =>
      (match reRun s fuel a pos cap k with
       | some r => some r
       | none => reRun s fuel b pos cap k)
    | .star lz a =>
      if lz then
        match k pos cap with
        | some r => some r
        | none =>
          reRun s fuel a pos cap
            (fun p c => if pos < p then reRun s fuel (.star lz a) p c k else none)
      else
        match reRun s fuel a pos cap
            (fun p c => if pos < p then reRun s fuel (.star lz a) p c k else none) with
        | some r => some r
        | none => k pos cap
    | .cap a => reRun s fuel a pos cap (fun p _ => k p (some (pos, p)))
    | .look a =>
      (match reRun s fuel a pos cap (fun p c => some (p, c)) with
       | some _ => k pos cap
       | none => none)
    | .eos => if pos = s.length then k pos cap else none
    | .dollar =>
      if pos = s.length ∨ (pos + 1 = s.length ∧ charAtD s pos = some '\n') then
        k pos cap
      else none

/-- Generous depth bound: the source patterns have well under 120
nodes and each backtracking path visits each input position at most
once per node. -/
def reFuel (s : Str) : Nat := (s.length + 2) * 260

/-- Anchored match attempt at `pos`: returns match end and capture. -/
def reMatchAt (s : Str) (re : RE) (pos : Nat) : Option (Nat × Caps) :=
  reRun s (reFuel s) re pos none (fun p c => some (p, c))

/-- Search as `re.search`: first matching start position, left to right. -/
def reSearchGo (s : Str) (re : RE) : Nat → Nat → Option (Nat × Nat × Caps)
  | 0, _ => none
  | fuel + 1, pos =>
    match reMatchAt s re pos with
    | some (e, cap) => some (pos, e, cap)
    | none => if pos < s.length then reSearchGo s re fuel (pos + 1) else none

def reSearch (s : Str) (re : RE) : Option (Nat × Nat × Caps) :=
  reSearchGo s re (s.length + 2) 0

/-- Substitution as `re.sub` with a replacement built from the match (group reference
plus literal text); positions handed to `mk` are absolute in `s`.
None of the embedded patterns can match the empty string, and the
`pos < me` guard makes the function total regardless. -/
def reSubGo (s : Str) (re : RE) (mk : Nat → Nat → Caps → Str) : Nat → Nat → Str
  | 0, pos => s.drop pos
  | fuel + 1, pos =>
    match reSearchGo s re (s.length + 2) pos with
    | none => s.drop pos
    | some (ms, me, cap) =>
      if pos < me ∧ pos ≤ ms then
        (s.drop pos).take (ms - pos) ++ mk ms me cap ++ reSubGo s re mk fuel me
      else s.drop pos

def reSubAll (s : Str) (re : RE) (mk : Nat → Nat → Caps → Str) : Str :=
  reSubGo s re mk (s.length + 2) 0

def capSlice (s : Str) (cap : Caps) : Str :=
  match cap with
  | some (a, b) => (s.drop a).take (b - a)
  | none => []

-- Pattern building blocks.

def reStr (cs : Str) : RE := cs.foldr (fun c acc => RE.seq (RE.lit c) acc) RE.eps

def reCi (cs : Str) : RE :=
  cs.foldr (fun c acc => RE.seq (RE.cls (fun x => x.toLower = c.toLower)) acc) RE.eps

def reOpt (a : RE) : RE := RE.alt a RE.eps

def wsRe : RE := RE.cls pyWs
def anyNoNl : RE := RE.cls (fun c => c ≠ '\n')
def anyDotAll : RE := RE.cls (fun _ => true)
def digitRe : RE := RE.cls Char.isDigit
def wordRe : RE := RE.cls (fun c => c.isAlphanum || c = '_')

-- ---------------------------------------------------------------------------
-- parse_edits_comment (source lines 75-137)
-- ---------------------------------------------------------------------------

/-- Corrections pattern `##?\s*Corrections.*?\n(.*?)(?=##?\s|$)` with DOTALL+IGNORECASE. -/
def reCorrections : RE :=
  RE.seq (RE.lit '#') (RE.seq (reOpt (RE.lit '#')) (RE.seq (RE.star false wsRe)
    (RE.seq (reCi (("corrections").data)) (RE.seq (RE.star true anyDotAll)
      (RE.seq (RE.lit '\n') (RE.seq (RE.cap (RE.star true anyDotAll))
        (RE.look (RE.alt
          (RE.seq (RE.lit '#') (RE.seq (reOpt (RE.lit '#')) wsRe))
          RE.dollar))))))))

/-- Subject pattern `(?:\*\*)?Subject:?\*?\*?\s*(.+?)(?:\n|$)` with IGNORECASE. -/
def reSubject : RE :=
  RE.seq (reOpt (reStr (("**").data))) (RE.seq (reCi (("subject").data))
    (RE.seq (reOpt (RE.lit ':')) (RE.seq (reOpt (RE.lit '*')) (RE.seq (reOpt (RE.lit '*'))
      (RE.seq (RE.star false wsRe)
        (RE.seq (RE.cap (RE.seq anyNoNl (RE.star true anyNoNl)))
          (RE.alt (RE.lit '\n') RE.dollar)))))))

/-- Body pattern `(?:\*\*)?Body:?\*?\*?\s*\n(.*?)(?=\n---|\Z)` with DOTALL+IGNORECASE. -/
def reBodyRe : RE :=
  RE.seq (reOpt (reStr (("**").data))) (RE.seq (reCi (("body").data))
    (RE.seq (reOpt (RE.lit ':')) (RE.seq (reOpt (RE.lit '*')) (RE.seq (reOpt (RE.lit '*'))
      (RE.seq (RE.star false wsRe) (RE.seq (RE.lit '\n')
        (RE.seq (RE.cap (RE.star true anyDotAll))
          (RE.look (RE.alt (reStr (("\n---").data)) RE.eos)))))))))

/-- Email-section pattern `##?\s*(?:Send this )?[Ee]mail.*?\n(.*)` with DOTALL. -/
def reEmailSection : RE :=
  RE.seq (RE.lit '#') (RE.seq (reOpt (RE.lit '#')) (RE.seq (RE.star false wsRe)
    (RE.seq (reOpt (reStr (("Send this ").data)))
      (RE.seq (RE.cls (fun c => c = 'E' || c = 'e')) (RE.seq (reStr (("mail").data))
        (RE.seq (RE.star true anyDotAll) (RE.seq (RE.lit '\n')
          (RE.cap (RE.star false anyDotAll)))))))))

/-- Subject-line removal pattern `\*\*Subject:\*\*.*?\n` (case-sensitive, no DOTALL). -/
def reSubjLine : RE :=
  RE.seq (reStr (("**Subject:**").data)) (RE.seq (RE.star true anyNoNl) (RE.lit '\n'))

/-- Body-marker pattern `^\*\*Body:\*\*\s*` (anchored; applied only at position 0). -/
def reBodyMarker : RE := RE.seq (reStr (("**Body:**").data)) (RE.star false wsRe)

structure Edits where
  corrections : Str
  email_subject : Str
  email_body : Str

/-- Function `parse_edits_comment(comment)` from the source. -/
def parse_edits_comment (comment : Str) : Edits :=
  let corr :=
    match reSearch comment reCorrections with
    | some (_, _, cap) => pyStrip (capSlice comment cap)
    | none => []
  let subj :=
    match reSearch comment reSubject with
    | some (_, _, cap) => pyStrip (capSlice comment cap)
    | none => []
  let body :=
    match reSearch comment reBodyRe with
    | some (_, _, cap) => pyStrip (capSlice comment cap)
    | none =>
      match reSearch comment reEmailSection with
      | some (_, _, cap) =>
        let sect := capSlice comment cap
        let bp := pyStrip (reSubAll sect reSubjLine (fun _ _ _ => []))
        let bp2 :=
          match reMatchAt bp reBodyMarker 0 with
          | some (e, _) => bp.drop e
          | none => bp
        pyStrip bp2
      | none => []
  ⟨corr, subj, body⟩

-- ---------------------------------------------------------------------------
-- update_last_updated (source lines 425-438)
-- ---------------------------------------------------------------------------

/-- The last-updated pattern, with IGNORECASE: captured group of the
phrase Last updated plus colons and whitespace, then a word, a blank,
a 1-2 digit day, a comma-blank, and a 4-digit year. -/
def reLastUpdated : RE :=
  RE.seq (RE.cap (RE.seq (reCi (("last updated").data))
      (RE.star false (RE.cls (fun c => c = ':' || pyWs c)))))
    (RE.seq (RE.seq wordRe (RE.star false wordRe)) (RE.seq (RE.lit ' ')
      (RE.seq digitRe (RE.seq (reOpt digitRe) (RE.seq (reStr ((", ").data))
        (RE.seq digitRe (RE.seq digitRe (RE.seq digitRe digitRe))))))))

/-- The data-as-of pattern: captured literal Data as of, then a word,
a blank, and a 4-digit year. -/
def reDataAsOf : RE :=
  RE.seq (RE.cap (reStr (("Data as of ").data)))
    (RE.seq (RE.seq wordRe (RE.star false wordRe)) (RE.seq (RE.lit ' ')
      (RE.seq digitRe (RE.seq digitRe (RE.seq digitRe digitRe)))))

/-- Function `update_last_updated(html, date_str)`; the second substitution
stamps the current processing month (`datetime.now().strftime("%B %Y")`),
supplied here as the explicit input `nowMY`. -/
def update_last_updated (html dateStr nowMY : Str) : Str :=
  let h1 := reSubAll html reLastUpdated (fun _ _ cap => capSlice html cap ++ dateStr)
  reSubAll h1 reDataAsOf (fun _ _ cap => capSlice h1 cap ++ nowMY)

-- ---------------------------------------------------------------------------
-- send_buttondown_email (source lines 473-514) and main (568-707)
-- ---------------------------------------------------------------------------

/-- Function `send_buttondown_email(subject, body)`: a missing credential or a
falsy subject/body is a skip returning `False`; otherwise the outcome
is the network result (any network exception is also caught and
returns `False`, folded into `netOk`). -/
def send_buttondown_email (key : Str) (subject body : Json) (netOk : Bool) : Bool :=
  if key.isEmpty then false
  else if ¬ jTruthy subject ∨ ¬ jTruthy body then false
  else netOk

/-- Process inputs of one run: credentials and event payload from the
environment, the three documents read from disk, the generator text
(the sole effect of the opaque `call_claude`/`extract_text` pair), the
email network outcome, and the current month-year stamp. -/
structure Env where
  anthropic_key : Str
  buttondown_key : Str
  issue_body : Str
  comment_body : Str
  index_html : Str
  feed_xml : Str
  monitor_py : Str
  claude_text : Str
  buttondown_net_ok : Bool
  now_month_year : Str

/-- Outputs of a successful run: the three documents as written back
to disk, plus the email outcome.  An `Except.error` result models
`sys.exit(1)` before any file is written. -/
structure RunResult where
  index_html : Str
  feed_xml : Str
  monitor_py : Str
  email_sent : Bool
  mode : Str

def jTruthyOpt : Option Json → Bool
  | some v => jTruthy v
  | none => false

/-- Fetch a descriptor field that the source passes to a `str`-only
consumer: absent or falsy means skip; a truthy non-string value makes
the Python run die on an uncaught TypeError (exit code 1). -/
def getStrField (updates : Json) (key : Str) : Except Nat (Option Str) :=
  match jGet updates key with
  | none => Except.ok none
  | some v =>
    if jTruthy v then
      match v with
      | Json.str s => Except.ok (some s)
      | _ => Except.error 1
    else Except.ok none

/-- Fetch the `stat_updates` object the same way (`.items()` needs a
dict). -/
def getObjField (updates : Json) (key : Str) : Except Nat (Option (List (Str × Json))) :=
  match jGet updates key with
  | none => Except.ok none
  | some v =>
    if jTruthy v then
      match v with
      | Json.obj kvs => Except.ok (some kvs)
      | _ => Except.error 1
    else Except.ok none

/-- Function `main()` from the source: config checks, mode resolution,
descriptor acquisition (the generator call is the opaque
`env.claude_text`; prompt construction cannot influence it here and is
not modelled), merge, write-back, email.  Issue commenting/closing has
no effect on the returned state and exit code and is omitted. -/
def mainRun (env : Env) : Except Nat RunResult :=
  if env.anthropic_key.isEmpty then Except.error 1
  else if env.issue_body.isEmpty then Except.error 1
  else
    let mode := detect_mode env.comment_body
    match parse_json_response env.claude_text with
    | Except.error e => Except.error e
    | Except.ok updates =>
      let emailPair : Json × Json :=
        if mode = ("with_edits").data then
          let edits := parse_edits_comment env.comment_body
          (Json.str edits.email_subject, Json.str edits.email_body)
        else
          (jGetD updates (("email_subject").data) (Json.str []),
           jGetD updates (("email_body").data) (Json.str []))
      let html0 := remove_old_new_tags env.index_html
      match getStrField updates (("new_timeline_entries_html").data) with
      | Except.error e => Except.error e
      | Except.ok tl =>
        let html1 := match tl with
          | some ne => insert_timeline_entries html0 ne
          | none => html0
        match getObjField updates (("stat_updates").data) with
        | Except.error e => Except.error e
        | Except.ok st =>
          let html2 := match st with
            | some kvs => update_stats html1 kvs
            | none => html1
          let html3 := match jGet updates (("last_updated_date").data) with
            | some v =>
              if jTruthy v then update_last_updated html2 (pyStrJson v) env.now_month_year
              else html2
            | none => html2
          match getStrField updates (("new_feed_items_xml").data) with
          | Except.error e => Except.error e
          | Except.ok fi =>
            let feed1 := match fi with
              | some items =>
                let bdJson := jGetD updates (("feed_last_build_date").data) (Json.str [])
                insert_feed_items env.feed_xml items
                  (if jTruthy bdJson then pyStrJson bdJson else [])
              | none => env.feed_xml
            match getStrField updates (("monitor_timeline_additions").data) with
            | Except.error e => Except.error e
            | Except.ok ma =>
              let mon1 := match ma with
                | some lines => update_monitor_timeline env.monitor_py lines
                | none => env.monitor_py
              let sent := send_buttondown_email env.buttondown_key
                emailPair.1 emailPair.2 env.buttondown_net_ok
              Except.ok ⟨html3, feed1, mon1, sent, mode⟩

-- Concrete documents used by witnesses and counterexamples.

/-- A canonical timeline document: title element, then entries dated
Feb 5 and Jan 30, ending exactly at the last entry's closing tag. -/
def wDoc : Str :=
  ("<div class=\"timeline-title mono\">T</div>\n<div class=\"tl-item\"><div class=\"tl-date\">Feb 5</div><div class=\"tl-dot\"></div><div class=\"tl-text\">a</div></div>\n<div class=\"tl-item\"><div class=\"tl-date\">Jan 30</div><div class=\"tl-dot\"></div><div class=\"tl-text\">b</div></div>").data

/-- A canonical new entry dated Feb 6 (newer than every entry of
`wDoc`). -/
def wNe : Str :=
  ("<div class=\"tl-item\"><div class=\"tl-date\">Feb 6</div><div class=\"tl-dot\"></div><div class=\"tl-text\">c <span class=\"tl-new\">New</span></div></div>").data

/-- A different new entry carrying the same first date label. -/
def wNe2 : Str :=
  ("<div class=\"tl-item\"><div class=\"tl-date\">Feb 6</div><div class=\"tl-dot\"></div><div class=\"tl-text\">d</div></div>").data

/-- A new entry dated Jan 2 (older than every entry of `wDoc`). -/
def cxNe : Str :=
  ("<div class=\"tl-item\"><div class=\"tl-date\">Jan 2</div><div class=\"tl-dot\"></div><div class=\"tl-text\">e</div></div>").data

/-- A with-edits run whose comment carries no subject/body sections
and whose generator text is a minimal all-null descriptor. -/
def wEnv : Env :=
  ⟨("k").data, ("b").data, ("i").data, ("approved with edits").data, wDoc,
   ("<f/>").data, ("m").data, ("\x7b\"stat_updates\": null\x7d").data, true,
   ("March 2026").data⟩

-- ===========================================================================
-- Theorems
-- ===========================================================================

-- Generic facts about the scanning primitives.

theorem occursIn_iff_isInfix (p s : Str) : occursIn p s = true ↔ p <:+: s := by
  induction s with
  | nil =>
    simp only [occursIn, List.isEmpty_iff]
    constructor
    · intro h; simp [h]
    · intro h; rcases List.infix_nil.mp h with rfl; rfl
  | cons c rest ih =>
    simp only [occursIn, Bool.or_eq_true, ih, List.isPrefixOf_iff_prefix,
      List.infix_cons_iff]

theorem occursIn_of_suffix (p t s : Str) (hts : t <:+ s)
    (hp : p.isPrefixOf t = true) : occursIn p s = true := by
  rw [occursIn_iff_isInfix]
  exact (( List.isPrefixOf_iff_prefix.mp hp).isInfix).trans hts.isInfix

theorem infix_dropWhile_head (q : Char) (pt s : Str) (hq : pyWs q = false)
    (h : (q :: pt) <:+: s) : (q :: pt) <:+: s.dropWhile pyWs := by
  induction s with
  | nil => exact h
  | cons c rest ih =>
    rw [List.dropWhile_cons]
    by_cases hc : pyWs c = true
    · rw [if_pos hc]
      rcases List.infix_cons_iff.mp h with hpre | hinf
      · rcases hpre with ⟨t, ht⟩
        rw [List.cons_append] at ht
        injection ht with h1 _
        rw [h1] at hq
        rw [hq] at hc
        exact absurd hc (by simp)
      · exact ih hinf
    · rw [if_neg hc]
      exact h

theorem pyStrip_isInfix (s : Str) : pyStrip s <:+: s := by
  unfold pyStrip
  have h1 : s.dropWhile pyWs <:+ s := List.dropWhile_suffix pyWs
  have h2 : (s.dropWhile pyWs).reverse.dropWhile pyWs <:+ (s.dropWhile pyWs).reverse :=
    List.dropWhile_suffix pyWs
  have h3 : ((s.dropWhile pyWs).reverse.dropWhile pyWs).reverse <+: s.dropWhile pyWs := by
    rw [← List.reverse_suffix, List.reverse_reverse]
    exact h2
  exact h3.isInfix.trans h1.isInfix

theorem occursIn_strip (q z : Char) (mid s : Str) (hq : pyWs q = false)
    (hz : pyWs z = false) :
    occursIn (q :: mid ++ [z]) (pyStrip s) = occursIn (q :: mid ++ [z]) s := by
  rcases hs : occursIn (q :: mid ++ [z]) s with _ | _
  · rcases hst : occursIn (q :: mid ++ [z]) (pyStrip s) with _ | _
    · rfl
    · exfalso
      have h1 : (q :: mid ++ [z]) <:+: s :=
        ((occursIn_iff_isInfix _ _).mp hst).trans (pyStrip_isInfix s)
      rw [(occursIn_iff_isInfix _ _).mpr h1] at hs
      exact absurd hs (by simp)
  · have h0 : (q :: mid ++ [z]) <:+: s := (occursIn_iff_isInfix _ _).mp hs
    have h1 : (q :: mid ++ [z]) <:+: s.dropWhile pyWs :=
      infix_dropWhile_head q (mid ++ [z]) s hq h0
    have h2 : (z :: (q :: mid).reverse) <:+: (s.dropWhile pyWs).reverse := by
      have := List.reverse_infix.mpr h1
      rw [List.reverse_append, List.reverse_cons] at this
      simpa using this
    have h3 : (z :: (q :: mid).reverse) <:+: (s.dropWhile pyWs).reverse.dropWhile pyWs :=
      infix_dropWhile_head z (q :: mid).reverse (s.dropWhile pyWs).reverse hz h2
    have h4 : (q :: mid ++ [z]) <:+: pyStrip s := by
      unfold pyStrip
      rw [← List.reverse_infix]
      rw [List.reverse_reverse, List.reverse_append, List.reverse_cons]
      simpa using h3
    rw [(occursIn_iff_isInfix _ _).mpr h4]

-- Identity of the marker-stripping scan on marker-free text.

theorem subWsLitGo_id (p : Str) : ∀ fuel s, s.length ≤ fuel →
    occursIn p s = false → subWsLitGo p fuel s = s := by
  intro fuel
  induction fuel with
  | zero => intro s _ _; rfl
  | succ f ih =>
    intro s hs hocc
    match s with
    | [] => rfl
    | c :: rest =>
      have hocc2 : occursIn p rest = false := by
        have h := hocc
        unfold occursIn at h
        exact (Bool.or_eq_false_iff.mp h).2
      have hneg : ¬ (p.isPrefixOf ((c :: rest).dropWhile pyWs) = true ∧ p ≠ []) := by
        rintro ⟨h1, _⟩
        rw [occursIn_of_suffix p ((c :: rest).dropWhile pyWs) (c :: rest)
          (List.dropWhile_suffix pyWs) h1] at hocc
        exact absurd hocc (by simp)
      show (if p.isPrefixOf ((c :: rest).dropWhile pyWs) = true ∧ p ≠ [] then
          subWsLitGo p f (((c :: rest).dropWhile pyWs).drop p.length)
        else c :: subWsLitGo p f rest) = c :: rest
      rw [if_neg hneg]
      have hlen : rest.length ≤ f := by
        have := hs
        simp only [List.length_cons] at this
        omega
      rw [ih rest hlen hocc2]

/-- C3 (amended): a second run of marker stripping is a no-op on every
document whose first-pass output contains no marker literal any more —
in particular on all well-formed documents, where stripping cannot
splice two marker fragments into a fresh occurrence.  The unrestricted
claim fails: see `remove_old_new_tags_not_idempotent`. -/
theorem remove_old_new_tags_idempotent (h : Str)
    (h1 : occursIn tlNewSpan (remove_old_new_tags h) = false)
    (h2 : occursIn oldNewSpan (remove_old_new_tags h) = false) :
    remove_old_new_tags (remove_old_new_tags h) = remove_old_new_tags h := by
  have e1 : subWsLit tlNewSpan (remove_old_new_tags h) = remove_old_new_tags h :=
    subWsLitGo_id _ _ _ (le_refl _) h1
  show subWsLit oldNewSpan (subWsLit tlNewSpan (remove_old_new_tags h))
      = remove_old_new_tags h
  rw [e1]
  exact subWsLitGo_id _ _ _ (le_refl _) h2

theorem remove_old_new_tags_idempotent_witness :
    occursIn tlNewSpan
        (remove_old_new_tags (("x <span class=\"tl-new\">New</span> y").data)) = false ∧
    remove_old_new_tags (remove_old_new_tags (("x <span class=\"tl-new\">New</span> y").data))
      = remove_old_new_tags (("x <span class=\"tl-new\">New</span> y").data) :=
  ⟨by decide, remove_old_new_tags_idempotent _ (by decide) (by decide)⟩

/-- C3 counterexample: removing a marker span can splice the text
around it into a new marker span, which only the next run removes; on
this document the first pass returns one marker span and the second
pass removes it, so the second application is not a no-op. -/
theorem remove_old_new_tags_not_idempotent :
    remove_old_new_tags (remove_old_new_tags
        (("<span class=\"tl-new\">New</span<span class=\"tl-new\">New</span>>").data))
      ≠ remove_old_new_tags
        (("<span class=\"tl-new\">New</span<span class=\"tl-new\">New</span>>").data) := by
  decide

/-- C7: the comment resolves to the with-edits mode exactly when the
lowercased comment contains the phrase "approved with edits", and to
the clean mode otherwise (the `strip` in the source cannot create or
destroy an occurrence because the phrase starts and ends with
non-whitespace). -/
theorem detect_mode_spec (c : Str) :
    (detect_mode c = ("with_edits").data ↔
      occursIn approvedPhrase (pyLower c) = true) ∧
    (detect_mode c = ("clean").data ↔
      occursIn approvedPhrase (pyLower c) = false) := by
  have key : occursIn approvedPhrase (pyStrip (pyLower c))
      = occursIn approvedPhrase (pyLower c) := by
    have h := occursIn_strip 'a' 's' (("pproved with edit").data) (pyLower c)
      (by decide) (by decide)
    have e : (('a' :: (("pproved with edit").data)) ++ ['s']) = approvedPhrase := by decide
    rw [e] at h
    exact h
  simp only [detect_mode]
  rcases ho : occursIn approvedPhrase (pyStrip (pyLower c)) with _ | _
  · rw [ho] at key
    simp only [Bool.false_eq_true, if_false]
    rw [← key]
    decide
  · rw [ho] at key
    simp only [if_true]
    rw [← key]
    decide

/-- C10: when the timeline-title anchor is absent and either the new
markup carries no tl-date element or the document has no existing
entry, the function returns the document unchanged (and the source
prints nothing on this path: the new entries are dropped silently). -/
theorem tl_insert_silent_drop (html ne : Str)
    (h1 : pyFind html timelineTitleMarker 0 = -1)
    (h2 : searchTlDate ne = none ∨ findAllOcc html tlItemMarker = []) :
    insert_timeline_entries html ne = html := by
  have htop : insertAtTop html ne = html := by
    unfold insertAtTop
    rw [h1]
    simp
  simp only [insert_timeline_entries]
  rcases hd : searchTlDate ne with _ | lbl
  · exact htop
  · rcases h2 with h2 | h2
    · rw [hd] at h2
      exact absurd h2 (by simp)
    · rw [h2]
      simp only [if_pos rfl]
      exact htop

theorem tl_insert_silent_drop_witness :
    pyFind (("<p>no timeline here</p>").data) timelineTitleMarker 0 = -1 ∧
    findAllOcc (("<p>no timeline here</p>").data) tlItemMarker = [] ∧
    insert_timeline_entries (("<p>no timeline here</p>").data)
        (("<div class=\"tl-date\">Feb 6</div>").data)
      = ("<p>no timeline here</p>").data :=
  ⟨by decide, by decide, tl_insert_silent_drop _ _ (by decide) (Or.inr (by decide))⟩

/-- C4 (amended): when the channel-description anchor is missing the
items are not inserted, a warning is emitted, and the feed is returned
unchanged except that a supplied non-empty build-date string has
already rewritten any `lastBuildDate` element (that rewrite happens
before the anchor check); with no build date supplied the feed is
returned exactly unchanged. -/
theorem feed_anchor_missing_spec (feed items bd : Str)
    (h : searchDescAnchor (applyBuildDate feed bd) = none) :
    insert_feed_items feed items bd = applyBuildDate feed bd ∧
    insert_feed_items_warns feed bd = true ∧
    (bd = [] → insert_feed_items feed items bd = feed) := by
  refine ⟨?_, ?_, ?_⟩
  · simp only [insert_feed_items]
    rw [h]
  · simp only [insert_feed_items_warns]
    rw [h]
    rfl
  · intro hbd
    simp only [insert_feed_items]
    rw [h]
    simp only [applyBuildDate]
    rw [if_pos hbd]

theorem feed_anchor_missing_witness :
    searchDescAnchor (applyBuildDate (("<x/>").data) (("B").data)) = none ∧
    insert_feed_items (("<x/>").data) (("i").data) (("B").data)
      = applyBuildDate (("<x/>").data) (("B").data) :=
  ⟨by decide, (feed_anchor_missing_spec _ _ _ (by decide)).1⟩

/-- C4 counterexample: a feed with no description anchor but with a
`lastBuildDate` element is not returned unchanged when a build-date
string is supplied — the date element is rewritten first. -/
theorem feed_anchor_missing_counterexample :
    searchDescAnchor (("<lastBuildDate>old</lastBuildDate>").data) = none ∧
    insert_feed_items (("<lastBuildDate>old</lastBuildDate>").data) (("<item/>").data)
        (("NEW").data)
      = ("<lastBuildDate>NEW</lastBuildDate>").data ∧
    ("<lastBuildDate>NEW</lastBuildDate>").data
      ≠ ("<lastBuildDate>old</lastBuildDate>").data := by
  decide

-- Bounds on the values produced by the date-parsing stages.

theorem digit_bounds (c : Char) (h : c.isDigit = true) :
    48 ≤ c.toNat ∧ c.toNat ≤ 57 := by
  simp only [Char.isDigit, Bool.and_eq_true, decide_eq_true_eq] at h
  obtain ⟨h1, h2⟩ := h
  exact ⟨UInt32.le_toNat_of_le (by decide) h1, UInt32.toNat_le_of_le (by decide) h2⟩

theorem digitsToNat_foldl_lt (ds : Str) : ∀ acc, allDigits ds = true →
    ds.foldl (fun a c => a * 10 + (c.toNat - 48)) acc < (acc + 1) * 10 ^ ds.length := by
  induction ds with
  | nil => intro acc _; simp
  | cons c t ih =>
    intro acc h
    simp only [allDigits, List.all_cons, Bool.and_eq_true] at h
    obtain ⟨hc, ht⟩ := h
    have hd : c.toNat - 48 ≤ 9 := by
      have := (digit_bounds c hc).2
      omega
    have step := ih (acc * 10 + (c.toNat - 48)) (by simpa [allDigits] using ht)
    simp only [List.foldl_cons, List.length_cons]
    calc List.foldl (fun a c => a * 10 + (c.toNat - 48)) (acc * 10 + (c.toNat - 48)) t
        < (acc * 10 + (c.toNat - 48) + 1) * 10 ^ t.length := step
      _ ≤ (acc + 1) * 10 ^ (t.length + 1) := by
          rw [pow_succ]
          have hle : acc * 10 + (c.toNat - 48) + 1 ≤ (acc + 1) * 10 := by omega
          calc (acc * 10 + (c.toNat - 48) + 1) * 10 ^ t.length
              ≤ ((acc + 1) * 10) * 10 ^ t.length := Nat.mul_le_mul_right _ hle
            _ = (acc + 1) * (10 ^ t.length * 10) := by ring

theorem digitsToNat_lt (ds : Str) (h : allDigits ds = true) :
    digitsToNat ds < 10 ^ ds.length := by
  have := digitsToNat_foldl_lt ds 0 h
  simpa [digitsToNat] using this

theorem monthNameStrip_mem (tbl : List (Str × Nat)) (s : Str) (m : Nat) (r : Str)
    (h : monthNameStrip tbl s = some (m, r)) : ∃ nm ∈ tbl, nm.2 = m := by
  induction tbl with
  | nil => simp [monthNameStrip] at h
  | cons nm tbl ih =>
    rcases nm with ⟨name, num⟩
    simp only [monthNameStrip] at h
    split at h
    · simp only [Option.some.injEq, Prod.mk.injEq] at h
      exact ⟨(name, num), List.mem_cons_self _ _, h.1⟩
    · obtain ⟨x, hx, he⟩ := ih h
      exact ⟨x, List.mem_cons_of_mem _ hx, he⟩

theorem days1900_le (m : Nat) : days1900 m ≤ 31 := by
  unfold days1900
  by_cases h : m - 1 < 12
  · set k := m - 1 with hk
    interval_cases k <;> decide
  · rw [List.getD_eq_getElem?_getD, List.getElem?_eq_none (by simpa using Nat.le_of_not_lt h)]
    simp

theorem tryMonthDay_bounds (tbl : List (Str × Nat))
    (htbl : ∀ nm ∈ tbl, 1 ≤ nm.2 ∧ nm.2 ≤ 12) (s : Str) (v : Nat)
    (h : tryMonthDay tbl s = some v) :
    ∃ m d, v = mkDate 2026 m d ∧ 1 ≤ m ∧ m ≤ 12 ∧ 1 ≤ d ∧ d ≤ 31 := by
  unfold tryMonthDay at h
  rcases hms : monthNameStrip tbl s with _ | ⟨m, r⟩ <;> rw [hms] at h
  · cases h
  · rcases r with _ | ⟨c, r2⟩
    · cases h
    · simp only at h
      split_ifs at h with h1 h2 h3
      · simp only [Option.some.injEq] at h
        obtain ⟨nm, hnm, he⟩ := monthNameStrip_mem tbl s m (c :: r2) hms
        have hm := htbl nm hnm
        refine ⟨m, digitsToNat ((c :: r2).dropWhile pyWs), h.symm, ?_, ?_, h3.1, ?_⟩
        · omega
        · omega
        · exact le_trans h3.2 (days1900_le m)

theorem tryMonthYear_bounds (tbl : List (Str × Nat))
    (htbl : ∀ nm ∈ tbl, 1 ≤ nm.2 ∧ nm.2 ≤ 12) (s : Str) (v : Nat)
    (h : tryMonthYear tbl s = some v) :
    ∃ y m, v = mkDate y m 1 ∧ 1 ≤ m ∧ m ≤ 12 ∧ 1 ≤ y ∧ y ≤ 9999 := by
  unfold tryMonthYear at h
  rcases hms : monthNameStrip tbl s with _ | ⟨m, r⟩ <;> rw [hms] at h
  · cases h
  · rcases r with _ | ⟨c, r2⟩
    · cases h
    · simp only at h
      split_ifs at h with h1 h2 h3
      · simp only [Option.some.injEq] at h
        obtain ⟨nm, hnm, he⟩ := monthNameStrip_mem tbl s m (c :: r2) hms
        have hm := htbl nm hnm
        have hlt : digitsToNat ((c :: r2).dropWhile pyWs) < 10000 := by
          have := digitsToNat_lt ((c :: r2).dropWhile pyWs) h2.1
          rw [h2.2] at this
          simpa using this
        exact ⟨digitsToNat ((c :: r2).dropWhile pyWs), m, h.symm,
          by omega, by omega, h3, by omega⟩

theorem tryBareYear_bounds (s : Str) (v : Nat) (h : tryBareYear s = some v) :
    ∃ y, v = mkDate y 1 1 ∧ 1 ≤ y ∧ y ≤ 9999 := by
  unfold tryBareYear at h
  rcases hp : pyInt s with _ | z <;> rw [hp] at h
  · cases h
  · rcases z with y | y
    · dsimp only at h
      split_ifs at h with h1
      · simp only [Option.some.injEq] at h
        exact ⟨y, h.symm, h1.1, h1.2⟩
    · dsimp only at h
      cases h

theorem parse_tl_date_shape (s : Str) (h : tl_date_parseable s = true) :
    ∃ y m d, parse_tl_date s = mkDate y m d ∧
      1 ≤ m ∧ m ≤ 12 ∧ 1 ≤ d ∧ d ≤ 31 ∧ 1 ≤ y ∧ y ≤ 9999 := by
  have habbrev : ∀ nm ∈ monthAbbrevs, 1 ≤ nm.2 ∧ nm.2 ≤ 12 := by decide
  have hfull : ∀ nm ∈ monthFulls, 1 ≤ nm.2 ∧ nm.2 ≤ 12 := by decide
  simp only [parse_tl_date]
  simp only [tl_date_parseable] at h
  rcases h1 : tryMonthDay monthAbbrevs (pyStrip s) with _ | v
  · rcases h2 : tryMonthDay monthFulls (pyStrip s) with _ | v
    · rcases h3 : tryMonthYear monthAbbrevs (pyStrip s) with _ | v
      · rcases h4 : tryMonthYear monthFulls (pyStrip s) with _ | v
        · rcases h5 : tryBareYear (pyStrip s) with _ | v
          · rw [h1, h2, h3, h4, h5] at h
            simp at h
          · obtain ⟨y, he, hy1, hy2⟩ := tryBareYear_bounds _ _ h5
            exact ⟨y, 1, 1, he, by omega, by omega,
              by omega, by omega, hy1, hy2⟩
        · obtain ⟨y, m, he, hm1, hm2, hy1, hy2⟩ := tryMonthYear_bounds _ hfull _ _ h4
          exact ⟨y, m, 1, he, hm1, hm2, by omega, by omega,
            hy1, hy2⟩
      · obtain ⟨y, m, he, hm1, hm2, hy1, hy2⟩ := tryMonthYear_bounds _ habbrev _ _ h3
        exact ⟨y, m, 1, he, hm1, hm2, by omega, by omega, hy1, hy2⟩
    · obtain ⟨m, d, he, hm1, hm2, hd1, hd2⟩ := tryMonthDay_bounds _ hfull _ _ h2
      exact ⟨2026, m, d, he, hm1, hm2, hd1, hd2, by omega, by omega⟩
  · obtain ⟨m, d, he, hm1, hm2, hd1, hd2⟩ := tryMonthDay_bounds _ habbrev _ _ h1
    exact ⟨2026, m, d, he, hm1, hm2, hd1, hd2, by omega, by omega⟩

theorem parse_tl_date_unparseable (s : Str) (h : tl_date_parseable s = false) :
    parse_tl_date s = mkDate 2020 1 1 := by
  simp only [parse_tl_date]
  simp only [tl_date_parseable] at h
  rcases h1 : tryMonthDay monthAbbrevs (pyStrip s) with _ | v
  · rcases h2 : tryMonthDay monthFulls (pyStrip s) with _ | v
    · rcases h3 : tryMonthYear monthAbbrevs (pyStrip s) with _ | v
      · rcases h4 : tryMonthYear monthFulls (pyStrip s) with _ | v
        · rcases h5 : tryBareYear (pyStrip s) with _ | v
          · rfl
          · rw [h5] at h; simp at h
        · rw [h4] at h; simp at h
      · rw [h3] at h; simp at h
    · rw [h2] at h; simp at h
  · rw [h1] at h; simp at h

/-- C2 (amended): labels matching none of the tried patterns normalize
to the fixed sentinel `datetime(2020, 1, 1)`, and entries with such
labels never abort the merge (the function is total).  The sentinel is
however not a minimum over parseable labels: it sits at or below a
parseable label's normalized date exactly when that label's normalized
year is at least 2020.  Month-day labels (pinned to year 2026) always
sort above the sentinel, but month-year and bare-year labels with
years before 2020 sort strictly below it — see
`tl_sentinel_not_minimal`. -/
theorem parse_tl_date_sentinel_spec :
    (∀ s, tl_date_parseable s = false → parse_tl_date s = mkDate 2020 1 1) ∧
    (∀ s, tl_date_parseable s = true →
       (tlSentinel ≤ parse_tl_date s ↔ 2020 ≤ parse_tl_date s / 10000)) ∧
    (∀ s v, tryMonthDay monthAbbrevs (pyStrip s) = some v ∨
        tryMonthDay monthFulls (pyStrip s) = some v →
       tlSentinel ≤ parse_tl_date s) := by
  have habbrev : ∀ nm ∈ monthAbbrevs, 1 ≤ nm.2 ∧ nm.2 ≤ 12 := by decide
  have hfull : ∀ nm ∈ monthFulls, 1 ≤ nm.2 ∧ nm.2 ≤ 12 := by decide
  have hsent : tlSentinel = 20200101 := rfl
  refine ⟨parse_tl_date_unparseable, ?_, ?_⟩
  · intro s hp
    obtain ⟨y, m, d, he, hm1, hm2, hd1, hd2, hy1, hy2⟩ := parse_tl_date_shape s hp
    rw [he, hsent]
    unfold mkDate
    constructor
    · intro hle
      omega
    · intro hy
      omega
  · intro s v hsome
    simp only [parse_tl_date]
    rcases h1 : tryMonthDay monthAbbrevs (pyStrip s) with _ | w
    · rcases hsome with hs1 | hs2
      · rw [h1] at hs1; cases hs1
      · rw [hs2]
        obtain ⟨m, d, hev, hm1, hm2, hd1, hd2⟩ := tryMonthDay_bounds _ hfull _ _ hs2
        rw [hev, hsent]
        show (20200101 : Nat) ≤ mkDate 2026 m d
        unfold mkDate
        omega
    · obtain ⟨m, d, hev, hm1, hm2, hd1, hd2⟩ := tryMonthDay_bounds _ habbrev _ _ h1
      show tlSentinel ≤ w
      rw [hev, hsent]
      unfold mkDate
      omega

theorem parse_tl_date_sentinel_witness :
    tl_date_parseable (("n/a").data) = false ∧
    parse_tl_date (("n/a").data) = mkDate 2020 1 1 ∧
    tl_date_parseable (("Feb 6").data) = true ∧
    (tlSentinel ≤ parse_tl_date (("Feb 6").data) ↔
      2020 ≤ parse_tl_date (("Feb 6").data) / 10000) :=
  ⟨by decide, parse_tl_date_sentinel_spec.1 _ (by decide), by decide,
    parse_tl_date_sentinel_spec.2.1 _ (by decide)⟩

/-- C2 counterexample: "2019" matches the bare-year pattern and
normalizes strictly below the sentinel, so the sentinel is not earlier
than or equal to every parseable label's date, and entries with
unparseable labels do not always sort to the bottom. -/
theorem tl_sentinel_not_minimal :
    tl_date_parseable (("2019").data) = true ∧
    parse_tl_date (("2019").data) < tlSentinel := by decide

-- The insertion loop returns at the first position satisfying its test.

theorem find?_first_true (pred : Nat → Bool) (l1 l2 : List Nat) (p : Nat)
    (hl1 : ∀ q ∈ l1, pred q = false) (hp : pred p = true) :
    (l1 ++ p :: l2).find? pred = some p := by
  induction l1 with
  | nil => simp [List.find?_cons, hp]
  | cons a t ih =>
    have ha := hl1 a (List.mem_cons_self _ _)
    simp only [List.cons_append, List.find?_cons, ha]
    exact ih fun q hq => hl1 q (List.mem_cons_of_mem _ hq)

/-- C1 (amended): with the new block's first date label parsed, the
block (with its trailing separator) is inserted immediately before the
first existing entry, scanning top to bottom, whose extracted date is
earlier than or equal to the new date — so ties place the new block
before the same-dated existing entry.  When every existing entry is
strictly newer, the block is inserted at the position one past the
third `</div>` occurrence following the last entry's start; for the
generator's canonical four-div entry markup this is immediately before
the last entry's own closing tag (nested inside it), not strictly
after the last entry — see `tl_insert_append_counterexample`. -/
theorem tl_insert_placement_spec :
    (∀ html ne lbl l1 l2 p, searchTlDate ne = some lbl →
       findAllOcc html tlItemMarker = l1 ++ p :: l2 →
       (∀ q ∈ l1, ∃ dq, dateOf html q = some dq ∧ parse_tl_date lbl < dq) →
       (∃ dp, dateOf html p = some dp ∧ dp ≤ parse_tl_date lbl) →
       insert_timeline_entries html ne
         = html.take p ++ ne ++ '\n' :: ("    ").data ++ html.drop p) ∧
    (∀ html ne lbl e, searchTlDate ne = some lbl →
       findAllOcc html tlItemMarker ≠ [] →
       (∀ q ∈ findAllOcc html tlItemMarker, ∀ dq, dateOf html q = some dq →
          parse_tl_date lbl < dq) →
       e = (endOfLastItem html ((findAllOcc html tlItemMarker).getLastD 0)).toNat →
       insert_timeline_entries html ne
         = html.take e ++ '\n' :: ("    ").data ++ ne ++ '\n' :: html.drop e) := by
  constructor
  · intro html ne lbl l1 l2 p hlbl hps hl1 hp
    simp only [insert_timeline_entries]
    rw [hlbl]
    dsimp only
    rw [hps]
    rw [if_neg (by simp : ¬ (l1 ++ p :: l2 = []))]
    have hfind : (l1 ++ p :: l2).find? (tlPred html (parse_tl_date lbl)) = some p := by
      apply find?_first_true
      · intro q hq
        obtain ⟨dq, hdq, hlt⟩ := hl1 q hq
        simp [tlPred, hdq]
        omega
      · obtain ⟨dp, hdp, hle⟩ := hp
        simp [tlPred, hdp]
        omega
    rw [hfind]
  · intro html ne lbl e hlbl hne hall he
    simp only [insert_timeline_entries]
    rw [hlbl]
    dsimp only
    rw [if_neg hne]
    have hfind : (findAllOcc html tlItemMarker).find?
        (tlPred html (parse_tl_date lbl)) = none := by
      rw [List.find?_eq_none]
      intro q hq
      intro hpred
      rcases hdq : dateOf html q with _ | dq
      · simp [tlPred, hdq] at hpred
      · have := hall q hq dq hdq
        simp [tlPred, hdq] at hpred
        omega
    rw [hfind, he]

theorem tl_insert_placement_witness :
    searchTlDate wNe = some (("Feb 6").data) ∧
    findAllOcc wDoc tlItemMarker = [] ++ 41 :: [155] ∧
    dateOf wDoc 41 = some 20260205 ∧
    20260205 ≤ parse_tl_date (("Feb 6").data) ∧
    insert_timeline_entries wDoc wNe
      = wDoc.take 41 ++ wNe ++ '\n' :: ("    ").data ++ wDoc.drop 41 :=
  ⟨by decide, by decide, by decide, by decide,
    tl_insert_placement_spec.1 wDoc wNe (("Feb 6").data) [] [155] 41 (by decide)
      (by decide) (by simp) ⟨20260205, by decide, by decide⟩⟩

/-- C1 counterexample: `wDoc` ends exactly at its last entry's closing
tag, so a block appended after the last entry would leave `wDoc` as a
prefix of the result; inserting an entry older than every existing one
(the claim's append case) produces a result that does not have `wDoc`
as a prefix — the block lands inside the last entry, before its
closing tag. -/
theorem tl_insert_append_counterexample :
    searchTlDate cxNe = some (("Jan 2").data) ∧
    findAllOcc wDoc tlItemMarker ≠ [] ∧
    (findAllOcc wDoc tlItemMarker).find?
      (tlPred wDoc (parse_tl_date (("Jan 2").data))) = none ∧
    List.isPrefixOf wDoc (insert_timeline_entries wDoc cxNe) = false := by
  decide

-- Position independence of the timeline insertion from everything in
-- the block except its first date label.

theorem insertAtTop_cases (html : Str) :
    (∀ y, insertAtTop html y = html) ∨
    ∃ pos, ∀ y, insertAtTop html y
      = html.take pos ++ '\n' :: (y ++ '\n' :: html.drop pos) := by
  by_cases h1 : pyFind html timelineTitleMarker 0 = -1
  · left
    intro y
    simp only [insertAtTop]
    rw [if_pos h1]
  · by_cases h2 : pyFind html divClose (pyFind html timelineTitleMarker 0).toNat = -1
    · left
      intro y
      simp only [insertAtTop]
      rw [if_neg h1, if_pos h2]
    · right
      refine ⟨(pyFind html divClose (pyFind html timelineTitleMarker 0).toNat + 6).toNat,
        fun y => ?_⟩
      simp only [insertAtTop]
      rw [if_neg h1, if_neg h2]

/-- C9: the function reads a date only from the first tl-date element
of the block (`searchTlDate` returns the first match), and the whole
block is spliced contiguously at one position that depends only on the
document and that first date: two blocks with the same first tl-date
element land at the same position with the same separators. -/
theorem tl_insert_first_date_only (html ne ne2 : Str)
    (h : searchTlDate ne = searchTlDate ne2) :
    (insert_timeline_entries html ne = html ∧
     insert_timeline_entries html ne2 = html) ∨
    (∃ p a b,
       insert_timeline_entries html ne = html.take p ++ a ++ ne ++ b ++ html.drop p ∧
       insert_timeline_entries html ne2 = html.take p ++ a ++ ne2 ++ b ++ html.drop p) := by
  simp only [insert_timeline_entries]
  rcases hs : searchTlDate ne with _ | lbl
  · rw [← h, hs]
    rcases insertAtTop_cases html with hc | ⟨pos, hc⟩
    · left
      exact ⟨hc ne, hc ne2⟩
    · right
      exact ⟨pos, ['\n'], ['\n'], by rw [hc ne]; simp, by rw [hc ne2]; simp⟩
  · rw [← h, hs]
    dsimp only
    by_cases hi : findAllOcc html tlItemMarker = []
    · simp only [hi, if_pos rfl]
      rcases insertAtTop_cases html with hc | ⟨pos, hc⟩
      · left
        exact ⟨hc ne, hc ne2⟩
      · right
        exact ⟨pos, ['\n'], ['\n'], by rw [hc ne]; simp, by rw [hc ne2]; simp⟩
    · simp only [if_neg hi]
      rcases hf : (findAllOcc html tlItemMarker).find?
          (tlPred html (parse_tl_date lbl)) with _ | p
      · right
        exact ⟨(endOfLastItem html ((findAllOcc html tlItemMarker).getLastD 0)).toNat,
          '\n' :: ("    ").data, ['\n'], by simp, by simp⟩
      · right
        exact ⟨p, [], '\n' :: ("    ").data, by simp, by simp⟩

theorem tl_insert_first_date_only_witness :
    searchTlDate wNe = searchTlDate wNe2 ∧
    ((insert_timeline_entries wDoc wNe = wDoc ∧
      insert_timeline_entries wDoc wNe2 = wDoc) ∨
     (∃ p a b,
        insert_timeline_entries wDoc wNe = wDoc.take p ++ a ++ wNe ++ b ++ wDoc.drop p ∧
        insert_timeline_entries wDoc wNe2
          = wDoc.take p ++ a ++ wNe2 ++ b ++ wDoc.drop p)) :=
  ⟨by decide, tl_insert_first_date_only wDoc wNe wNe2 (by decide)⟩

-- The stat substitution rewrites exactly the matched spans.

theorem statMatchAt_pos (anchor s : Str) (g1 ml : Nat)
    (h : statMatchAt anchor s = some (g1, ml)) : 1 ≤ ml ∧ g1 < ml := by
  unfold statMatchAt at h
  split_ifs at h with h1
  · dsimp only at h
    split at h
    · split_ifs at h with h2
      simp only [Option.some.injEq, Prod.mk.injEq] at h
      obtain ⟨hg, hm⟩ := h
      have hds := List.length_pos.mpr h2
      omega
    · cases h

theorem statFindGo_fuel (anchor : Str) : ∀ f g s, s.length ≤ f → s.length ≤ g →
    statFindGo anchor f s = statFindGo anchor g s := by
  intro f
  induction f with
  | zero =>
    intro g s hf _
    have hnil : s = [] := List.eq_nil_of_length_eq_zero (Nat.le_zero.mp hf)
    subst hnil
    cases g <;> rfl
  | succ f ih =>
    intro g s hf hg
    match s, g with
    | [], g => cases g <;> rfl
    | c :: rest, 0 => simp at hg
    | c :: rest, g + 1 =>
      cases hm : statMatchAt anchor (c :: rest) with
      | some x => simp [statFindGo, hm]
      | none =>
        simp only [statFindGo, hm]
        have h1 : rest.length ≤ f := by simp at hf; omega
        have h2 : rest.length ≤ g := by simp at hg; omega
        rw [ih g rest h1 h2]

theorem subStatGo_id (anchor rep : Str) : ∀ fuel s, s.length ≤ fuel →
    statFindGo anchor s.length s = none → subStatGo anchor rep fuel s = s := by
  intro fuel
  induction fuel with
  | zero => intro s _ _; rfl
  | succ f ih =>
    intro s hs hnone
    match s with
    | [] => rfl
    | c :: rest =>
      cases hm : statMatchAt anchor (c :: rest) with
      | some x =>
        rw [show (c :: rest).length = rest.length + 1 from rfl] at hnone
        simp [statFindGo, hm] at hnone
      | none =>
        have hrec : statFindGo anchor rest.length rest = none := by
          rw [show (c :: rest).length = rest.length + 1 from rfl] at hnone
          simp only [statFindGo, hm] at hnone
          exact Option.map_eq_none'.mp hnone
        simp only [subStatGo, hm]
        have hlen : rest.length ≤ f := by simp at hs; omega
        rw [ih rest hlen hrec]

theorem subStatGo_single (anchor rep : Str) : ∀ fuel s i g1 ml, s.length ≤ fuel →
    statFindGo anchor s.length s = some (i, g1, ml) →
    statFindGo anchor (s.drop ml).length (s.drop ml) = none →
    subStatGo anchor rep fuel s = s.take g1 ++ rep ++ s.drop ml := by
  intro fuel
  induction fuel with
  | zero =>
    intro s i g1 ml hs hf _
    have hnil : s = [] := List.eq_nil_of_length_eq_zero (Nat.le_zero.mp hs)
    subst hnil
    cases hf
  | succ f ih =>
    intro s i g1 ml hs hf hafter
    match s with
    | [] => cases hf
    | c :: rest =>
      cases hm : statMatchAt anchor (c :: rest) with
      | some x =>
        rcases x with ⟨a, b⟩
        have hinj : 0 = i ∧ a = g1 ∧ b = ml := by
          rw [show (c :: rest).length = rest.length + 1 from rfl] at hf
          simp only [statFindGo, hm, Option.some.injEq, Prod.mk.injEq] at hf
          exact hf
        obtain ⟨_, hg, hb⟩ := hinj
        subst hg hb
        have hpos := (statMatchAt_pos anchor (c :: rest) a b hm).1
        simp only [subStatGo, hm]
        have hlen : ((c :: rest).drop b).length ≤ f := by
          have hs2 : rest.length + 1 ≤ f + 1 := by simpa using hs
          simp only [List.length_drop, List.length_cons]
          omega
        rw [subStatGo_id anchor rep f ((c :: rest).drop b) hlen hafter]
      | none =>
        have hf2 : ∃ i2 g2 m2, statFindGo anchor rest.length rest = some (i2, g2, m2) ∧
            i = i2 + 1 ∧ g1 = g2 + 1 ∧ ml = m2 + 1 := by
          rw [show (c :: rest).length = rest.length + 1 from rfl] at hf
          simp only [statFindGo, hm] at hf
          rcases Option.map_eq_some'.mp hf with ⟨⟨i2, g2, m2⟩, hrec, hval⟩
          simp only [Prod.mk.injEq] at hval
          exact ⟨i2, g2, m2, hrec, hval.1.symm, hval.2.1.symm, hval.2.2.symm⟩
        obtain ⟨i2, g2, m2, hrec, hi, hg, hm2⟩ := hf2
        subst hi hg hm2
        simp only [subStatGo, hm]
        have hlen : rest.length ≤ f := by simp at hs; omega
        have hafter2 : statFindGo anchor (rest.drop m2).length (rest.drop m2) = none := by
          have : (c :: rest).drop (m2 + 1) = rest.drop m2 := rfl
          rw [this] at hafter
          exact hafter
        rw [ih rest i2 g2 m2 hlen hrec hafter2]
        simp [List.take_succ_cons, List.drop_succ_cons]

theorem subStat_single (anchor rep s : Str) (i g1 ml : Nat)
    (hf : statFind anchor s = some (i, g1, ml))
    (hafter : statFind anchor (s.drop ml) = none) :
    subStat anchor rep s = s.take g1 ++ rep ++ s.drop ml :=
  subStatGo_single anchor rep s.length s i g1 ml (le_refl _) hf hafter

theorem update_stats_eq_foldl (html : Str) (stats : List (Str × Json)) :
    update_stats html stats = stats.foldl statStep html := by
  unfold update_stats
  split_ifs with h
  · rw [List.isEmpty_iff.mp h]
    rfl
  · rfl

theorem update_stats_filter (html : Str) (stats : List (Str × Json)) :
    update_stats html stats
      = update_stats html (stats.filter (fun kv => !(kv.2).isNull)) := by
  rw [update_stats_eq_foldl, update_stats_eq_foldl]
  induction stats generalizing html with
  | nil => rfl
  | cons kv rest ih =>
    by_cases hn : (kv.2).isNull = true
    · have hb : (!(kv.2).isNull) = false := by rw [hn]; rfl
      rw [List.filter_cons, hb]
      simp only [Bool.false_eq_true, if_false, List.foldl_cons]
      have hstep : statStep html kv = html := by
        unfold statStep
        rw [if_pos hn]
      rw [hstep]
      exact ih html
    · have hb : (!(kv.2).isNull) = true := by
        have hx : (kv.2).isNull = false := Bool.eq_false_iff.mpr hn
        rw [hx]
        rfl
      rw [List.filter_cons, hb]
      simp only [if_true, List.foldl_cons]
      exact ih (statStep html kv)

/-- C5 (amended): a stat entry is applied only when its value is
non-null — null entries are skipped entirely, leaving the document
(and in particular the existing integer) untouched, never resetting it
to zero — and rewriting with integer n replaces exactly the span from
the anchor's closing `>` to the end of the old digit run with the
decimal rendering of n.  That matched span includes any whitespace
between the `>` and the digits, which the rewrite deletes (the
substitution emits group 1 and the new number only), so markup inside
the matched span is not preserved — see
`update_stats_whitespace_counterexample`; everything outside the
matched span is untouched. -/
theorem update_stats_spec :
    (∀ (html : Str) (stats : List (Str × Json)), update_stats html stats
        = update_stats html (stats.filter (fun kv => !(kv.2).isNull))) ∧
    (∀ html : Str, update_stats html [(("states_sued").data, Json.null)] = html) ∧
    (∀ (html : Str) (n : Int) (i g1 ml : Nat),
       statFind suedAnchor html = some (i, g1, ml) →
       statFind suedAnchor (html.drop ml) = none →
       update_stats html [(("states_sued").data, Json.num n)]
         = html.take g1 ++ intToStr n ++ html.drop ml) := by
  refine ⟨update_stats_filter, ?_, ?_⟩
  · intro html
    rfl
  · intro html n i g1 ml hf hafter
    have he : update_stats html [(("states_sued").data, Json.num n)]
        = subStat suedAnchor (intToStr n) html := rfl
    rw [he]
    exact subStat_single _ _ _ _ _ _ hf hafter

theorem update_stats_spec_witness :
    statFind suedAnchor (("<div data-stat=\"sued\">7</div>").data) = some (5, 22, 23) ∧
    update_stats (("<div data-stat=\"sued\">7</div>").data)
        [(("states_sued").data, Json.num 9)]
      = (("<div data-stat=\"sued\">7</div>").data).take 22 ++ intToStr 9 ++
        (("<div data-stat=\"sued\">7</div>").data).drop 23 :=
  ⟨by decide,
    update_stats_spec.2.2 (("<div data-stat=\"sued\">7</div>").data) 9 5 22 23
      (by decide) (by decide)⟩

/-- C5 counterexample: with whitespace between the anchor's `>` and
the integer, the rewrite deletes that whitespace along with the old
digits, so the surrounding markup is not left untouched: the claim
would predict `<div data-stat="sued"> 9</div>` but the code produces
`<div data-stat="sued">9</div>`. -/
theorem update_stats_whitespace_counterexample :
    update_stats (("<div data-stat=\"sued\"> 7</div>").data)
        [(("states_sued").data, Json.num 9)]
      = ("<div data-stat=\"sued\">9</div>").data ∧
    ("<div data-stat=\"sued\">9</div>").data ≠ ("<div data-stat=\"sued\"> 9</div>").data := by
  decide

/-- C6: the descriptor is extracted by stripping the code-fence
wrapper, locating the span from the first brace through the last
closing brace of the cleaned text (prose around it is thereby
ignored), and JSON-decoding that span; missing delimiters or a decode
failure exit the run with code 1, and in `mainRun` that error
short-circuits before the output documents exist — no file is written
and there is no retry. -/
theorem parse_json_response_spec :
    (∀ text : Str, firstBrace (cleanFences text) = none ∨
        lastBrace (cleanFences text) = none →
       parse_json_response text = Except.error 1) ∧
    (∀ (text : Str) (st en : Nat), firstBrace (cleanFences text) = some st →
       lastBrace (cleanFences text) = some en →
       parse_json_response text
         = match jsonLoads (((cleanFences text).drop st).take (en + 1 - st)) with
           | some v => Except.ok v
           | none => Except.error 1) ∧
    (∀ env : Env, parse_json_response env.claude_text = Except.error 1 →
       mainRun env = Except.error 1) := by
  refine ⟨?_, ?_, ?_⟩
  · intro text h
    simp only [parse_json_response]
    rcases h with h | h
    · rw [h]
    · rw [h]
      all_goals rcases firstBrace (cleanFences text) with _ | st <;> rfl
  · intro text st en h1 h2
    simp only [parse_json_response]
    rw [h1, h2]
  · intro env hp
    unfold mainRun
    split_ifs with h1 h2
    · rfl
    · rfl
    · rw [hp]

theorem parse_json_response_spec_witness :
    firstBrace (cleanFences (("Sure!\n```json\n\x7b\"states_sued\": 9\x7d\n```").data))
      = some 14 ∧
    lastBrace (cleanFences (("Sure!\n```json\n\x7b\"states_sued\": 9\x7d\n```").data))
      = some 31 ∧
    parse_json_response (("Sure!\n```json\n\x7b\"states_sued\": 9\x7d\n```").data)
      = (match jsonLoads
          (((cleanFences (("Sure!\n```json\n\x7b\"states_sued\": 9\x7d\n```").data)).drop 14).take
            (31 + 1 - 14)) with
         | some v => Except.ok v
         | none => Except.error 1) ∧
    parse_json_response (("Sure!\n```json\n\x7b\"states_sued\": 9\x7d\n```").data)
      = Except.ok (Json.obj [(("states_sued").data, Json.num 9)]) :=
  ⟨by decide, by decide,
    parse_json_response_spec.2.1 _ 14 31 (by decide) (by decide), by rfl⟩

/-- C8: a missing email credential or a falsy subject or body makes
the send a skip that returns false instead of raising, and a
with-edits run whose comment yields no extractable subject or body
still completes the merge: the run returns the three produced
documents with only the email flag false. -/
theorem email_skip_spec :
    (∀ (key : Str) (subject body : Json) (netOk : Bool),
       key = [] ∨ jTruthy subject = false ∨ jTruthy body = false →
       send_buttondown_email key subject body netOk = false) ∧
    (∀ (env : Env) (updates : Json) (tl fi ma : Option Str)
        (st : Option (List (Str × Json))),
       env.anthropic_key ≠ [] → env.issue_body ≠ [] →
       detect_mode env.comment_body = ("with_edits").data →
       parse_json_response env.claude_text = Except.ok updates →
       getStrField updates (("new_timeline_entries_html").data) = Except.ok tl →
       getObjField updates (("stat_updates").data) = Except.ok st →
       getStrField updates (("new_feed_items_xml").data) = Except.ok fi →
       getStrField updates (("monitor_timeline_additions").data) = Except.ok ma →
       (parse_edits_comment env.comment_body).email_subject = [] ∨
         (parse_edits_comment env.comment_body).email_body = [] →
       ∃ r : RunResult, mainRun env = Except.ok r ∧ r.email_sent = false) := by
  have hsend : ∀ (key : Str) (subject body : Json) (netOk : Bool),
      key = [] ∨ jTruthy subject = false ∨ jTruthy body = false →
      send_buttondown_email key subject body netOk = false := by
    intro key subject body netOk h
    unfold send_buttondown_email
    by_cases hk : key.isEmpty = true
    · rw [if_pos hk]
    · rw [if_neg hk]
      rcases h with h | h | h
      · exact absurd (List.isEmpty_iff.mpr h) hk
      · rw [if_pos (Or.inl (by simp [h]))]
      · rw [if_pos (Or.inr (by simp [h]))]
  refine ⟨hsend, ?_⟩
  intro env updates tl fi ma st h1 h2 hmode hp htl hst hfi hma hemp
  unfold mainRun
  rw [if_neg (fun hx => h1 (List.isEmpty_iff.mp hx)),
    if_neg (fun hx => h2 (List.isEmpty_iff.mp hx)), hp]
  dsimp only
  rw [hmode]
  rw [if_pos rfl]
  rw [htl]
  dsimp only
  rw [hst]
  dsimp only
  rw [hfi]
  dsimp only
  rw [hma]
  dsimp only
  refine ⟨_, rfl, ?_⟩
  show send_buttondown_email env.buttondown_key
      (Json.str (parse_edits_comment env.comment_body).email_subject)
      (Json.str (parse_edits_comment env.comment_body).email_body)
      env.buttondown_net_ok = false
  rcases hemp with he | he
  · exact hsend _ _ _ _ (Or.inr (Or.inl (by rw [he]; rfl)))
  · exact hsend _ _ _ _ (Or.inr (Or.inr (by rw [he]; rfl)))

theorem email_skip_spec_witness :
    (parse_edits_comment wEnv.comment_body).email_subject = [] ∧
    ∃ r : RunResult, mainRun wEnv = Except.ok r ∧ r.email_sent = false :=
  ⟨by rfl,
    email_skip_spec.2 wEnv (Json.obj [(("stat_updates").data, Json.null)])
      none none none none (by decide) (by decide) (by decide) (by rfl)
      (by rfl) (by rfl) (by rfl) (by rfl) (Or.inl (by rfl))⟩
